import Mathlib

/-
Shallow embedding of the information-retrieval core of `src/app.py`
(tokenize, build_tfidf, cosine_similarity, search_with_ir, recommend_similar).

Modelling conventions:
* a Python string is a list of characters (`Str := List Char`);
* Python floats are real numbers;
* a Python dict produced by `build_tfidf` (`vocab_index`, `idf`) is modelled by
  the underlying vocabulary list (slot `i` of a vector belongs to `vocab[i]`,
  mirroring `vocab_index = {word: i for i, word in enumerate(vocab)}`) together
  with a total function `Str → ℝ` for the idf weights (`idf.get(word, 0)`
  returns `0` outside the table);
* `list.sort(key=lambda x: x[1], reverse=True)` is Python's stable sort in
  descending score order; a stable sort is uniquely determined by its input,
  and is modelled by `List.insertionSort (fun a b => b.2 ≤ a.2)`, which
  places earlier-input elements first among equal scores.
-/

abbrev Str : Type := List Char

/-- Python function `tokenize` (src/app.py:17-20): `if not text: return []`, then
`text.lower().replace(',', ' ').replace('.', ' ').split()`.  Python's
`str.split()` with no argument splits on whitespace runs and drops empty
pieces. -/
def tokenize (text : Str) : List Str :=
  if text = [] then []
  else
    ((((text.map Char.toLower).map (fun c => if c = ',' then ' ' else c)).map
          (fun c => if c = '.' then ' ' else c)).splitOnP (·.isWhitespace)).filter
      (· ≠ [])

/-- Python callers may also pass `None` for the text; the guard `if not text`
treats `None` exactly like the empty string. -/
def tokenizeOpt (text : Option Str) : List Str :=
  match text with
  | none => []
  | some t => tokenize t

/-- The corpus vocabulary (src/app.py:23-26): the set of all tokens of all
documents, listed without duplicates.  Python materialises `list(set(...))`
in an implementation-defined order; the embedding fixes one concrete
duplicate-free enumeration (`List.dedup`), and claim C10 shows the engine's
results do not depend on which order was fixed. -/
def vocabList (documents : List Str) : List Str :=
  ((documents.map tokenize).flatten).dedup

/-- Document frequency (src/app.py:32): the number of documents whose token
list contains the word. -/
def docFreq (documents : List Str) (w : Str) : ℕ :=
  documents.countP (fun d => w ∈ tokenize d)

/-- The idf weight stored for a vocabulary word (src/app.py:33):
`math.log((N + 1) / (df + 1)) + 1`. -/
noncomputable def idfOf (documents : List Str) (w : Str) : ℝ :=
  Real.log (((documents.length : ℝ) + 1) / ((docFreq documents w : ℝ) + 1)) + 1

/-- The idf dictionary as a total function: defined on vocabulary keys,
`idf.get(w, 0)` yields `0` for any other word. -/
noncomputable def idfFun (documents : List Str) (w : Str) : ℝ :=
  if w ∈ vocabList documents then idfOf documents w else 0

/-- TF-IDF vectorization over the vocabulary slots (src/app.py:36-44 for
documents, 60-66 for the query): starting from `[0] * len(vocab)`, slot `i`
receives `count * idf[word]` for `word = vocab[i]`; words outside the
vocabulary are skipped, and a vocabulary word absent from `tokens` keeps the
initial `0 = 0 * idf[word]`.  (For the duplicate-free vocabularies produced
by `build_tfidf`, slot `i` therefore holds exactly the weight of `vocab[i]`.) -/
noncomputable def vectorize (tokens : List Str) (vocab : List Str) (idf : Str → ℝ) :
    List ℝ :=
  vocab.map (fun w => ((tokens.count w : ℝ) * idf w))

/-- Python function `build_tfidf` (src/app.py:22-46): returns the document vectors, the
vocabulary (standing for `vocab_index`), and the idf table. -/
noncomputable def buildTfidf (documents : List Str) :
    List (List ℝ) × List Str × (Str → ℝ) :=
  (documents.map (fun d => vectorize (tokenize d) (vocabList documents) (idfFun documents)),
    vocabList documents, idfFun documents)

/-- Sum of squares of the entries of a vector (`sum(a * a for a in vec)`). -/
noncomputable def sumSq (v : List ℝ) : ℝ :=
  (v.map (fun x => x * x)).sum

/-- Dot product (`sum(a * b for a, b in zip(vec1, vec2))`); Python's `zip`
truncates to the shorter vector. -/
noncomputable def dotList (a b : List ℝ) : ℝ :=
  ((a.zip b).map (fun p => p.1 * p.2)).sum

/-- Euclidean norm (`math.sqrt(sum(a * a for a in vec))`). -/
noncomputable def normList (v : List ℝ) : ℝ :=
  Real.sqrt (sumSq v)

/-- Python function `cosine_similarity` (src/app.py:48-56): returns `0` when either vector is
falsy (empty) or has zero norm, otherwise `dot / (norm1 * norm2)`.  The code
performs no length check. -/
noncomputable def cosineSimilarity (vec1 vec2 : List ℝ) : ℝ :=
  if vec1 = [] ∨ vec2 = [] then 0
  else if normList vec1 = 0 ∨ normList vec2 = 0 then 0
  else dotList vec1 vec2 / (normList vec1 * normList vec2)

/-- A book record as consumed by the ranking core; `search_with_ir` reads the
`title` and `author` fields, `recommend_similar` returns records wholesale. -/
structure Book where
  id : Str
  title : Str
  author : Str
  category : Str
  description : Str
deriving DecidableEq, Inhabited

/-- Field-boost term (src/app.py:76-77):
`sum(weight for token in query_tokens if token in field_tokens)`, that is
`weight` times the number of query tokens, counted with multiplicity, that
occur in the tokenized field. -/
def boost (weight : ℕ) (queryTokens fieldTokens : List Str) : ℝ :=
  (((queryTokens.filter (fun t => t ∈ fieldTokens)).length * weight : ℕ) : ℝ)

/-- Combined score of one candidate document (src/app.py:70-79):
`cos_score * 4.0 + title_match + author_match`. -/
noncomputable def finalScore (queryTokens : List Str) (queryVector : List ℝ)
    (b : Book) (docVec : List ℝ) : ℝ :=
  cosineSimilarity queryVector docVec * 4.0 +
    boost 3 queryTokens (tokenize b.title) + boost 2 queryTokens (tokenize b.author)

/-- The scored candidate list built by the loop of src/app.py:68-80, in corpus
order: `(books[i], final_score_i)` for each document vector. -/
noncomputable def searchScores (query : Str) (books : List Book)
    (docVectors : List (List ℝ)) (vocab : List Str) (idf : Str → ℝ) :
    List (Book × ℝ) :=
  (books.zip docVectors).map (fun p =>
    (p.1, finalScore (tokenize query) (vectorize (tokenize query) vocab idf) p.1 p.2))

/-- Python function `search_with_ir` (src/app.py:58-83): score every document, stable-sort by
score descending, keep the strictly positive ones, return the books. -/
noncomputable def searchWithIr (query : Str) (books : List Book)
    (docVectors : List (List ℝ)) (vocab : List Str) (idf : Str → ℝ) :
    List Book :=
  (((searchScores query books docVectors vocab idf).insertionSort
        (fun a b => b.2 ≤ a.2)).filter (fun p => 0 < p.2)).map Prod.fst

/-- The scored candidate list of the recommender loop (src/app.py:92-95):
every document other than the source, paired with its cosine similarity to
the source vector. -/
noncomputable def recommendScores (bookIdx : ℕ) (books : List Book)
    (docVectors : List (List ℝ)) : List (Book × ℝ) :=
  (((books.zip docVectors).enum).filter (fun p => p.1 ≠ bookIdx)).map
    (fun p => (p.2.1, cosineSimilarity (docVectors.getD bookIdx []) p.2.2))

/-- Python function `recommend_similar` (src/app.py:85-98): an out-of-range source index
yields `[]`; otherwise stable-sort the other documents by similarity
descending and return the first `top_n` books (`top_n` defaults to 4 at the
call site). -/
noncomputable def recommendSimilar (bookIdx : ℤ) (books : List Book)
    (docVectors : List (List ℝ)) (topN : ℕ) : List Book :=
  if bookIdx < 0 ∨ (docVectors.length : ℤ) ≤ bookIdx then []
  else
    (((recommendScores bookIdx.toNat books docVectors).insertionSort
          (fun a b => b.2 ≤ a.2)).take topN).map Prod.fst

/-! ### Basic facts about the vector arithmetic -/

theorem dotList_nil_left (b : List ℝ) : dotList [] b = 0 := by
  simp [dotList]

theorem dotList_nil_right (a : List ℝ) : dotList a [] = 0 := by
  simp [dotList]

theorem dotList_cons (x y : ℝ) (a b : List ℝ) :
    dotList (x :: a) (y :: b) = x * y + dotList a b := by
  simp [dotList]

theorem sumSq_nil : sumSq [] = 0 := by
  simp [sumSq]

theorem sumSq_cons (x : ℝ) (v : List ℝ) : sumSq (x :: v) = x * x + sumSq v := by
  simp [sumSq]

theorem sumSq_nonneg (v : List ℝ) : 0 ≤ sumSq v := by
  refine List.sum_nonneg ?_
  intro x hx
  obtain ⟨y, _, rfl⟩ := List.mem_map.mp hx
  exact mul_self_nonneg y

theorem sumSq_pos (v : List ℝ) (x : ℝ) (hx : x ∈ v) (hx0 : x ≠ 0) : 0 < sumSq v := by
  induction v with
  | nil => cases hx
  | cons y t ih =>
    rw [sumSq_cons]
    rcases List.mem_cons.mp hx with rfl | hxt
    · exact add_pos_of_pos_of_nonneg (mul_self_pos.mpr hx0) (sumSq_nonneg t)
    · exact add_pos_of_nonneg_of_pos (mul_self_nonneg y) (ih hxt)

theorem dotList_comm : ∀ a b : List ℝ, dotList a b = dotList b a
  | [], b => by rw [dotList_nil_left, dotList_nil_right]
  | _ :: _, [] => by rw [dotList_nil_left, dotList_nil_right]
  | x :: a, y :: b => by
    rw [dotList_cons, dotList_cons, dotList_comm a b, mul_comm]

theorem dotList_self (v : List ℝ) : dotList v v = sumSq v := by
  induction v with
  | nil => rw [dotList_nil_left, sumSq_nil]
  | cons x t ih => rw [dotList_cons, sumSq_cons, ih]

theorem dotList_nonneg (a b : List ℝ) (ha : ∀ x ∈ a, 0 ≤ x) (hb : ∀ x ∈ b, 0 ≤ x) :
    0 ≤ dotList a b := by
  refine List.sum_nonneg ?_
  intro x hx
  obtain ⟨⟨u, v⟩, huv, rfl⟩ := List.mem_map.mp hx
  exact mul_nonneg (ha u (List.of_mem_zip huv).1) (hb v (List.of_mem_zip huv).2)

theorem normList_nonneg (v : List ℝ) : 0 ≤ normList v :=
  Real.sqrt_nonneg _

theorem normList_sq (v : List ℝ) : normList v * normList v = sumSq v :=
  Real.mul_self_sqrt (sumSq_nonneg v)

/-- Cauchy–Schwarz for the truncating dot product. -/
theorem dotList_sq_le : ∀ a b : List ℝ, dotList a b ^ 2 ≤ sumSq a * sumSq b
  | [], b => by
    rw [dotList_nil_left, sumSq_nil]
    simp only [ne_eq, OfNat.ofNat_ne_zero, not_false_eq_true, zero_pow, zero_mul]
    exact le_rfl
  | x :: a, [] => by
    rw [dotList_nil_right, sumSq_nil]
    simp only [ne_eq, OfNat.ofNat_ne_zero, not_false_eq_true, zero_pow, mul_zero]
    exact le_rfl
  | x :: a, y :: b => by
    rw [dotList_cons, sumSq_cons, sumSq_cons]
    have ih := dotList_sq_le a b
    have h1 := sumSq_nonneg a
    have h2 := sumSq_nonneg b
    have key : 2 * (x * y) * dotList a b ≤ x * x * sumSq b + y * y * sumSq a := by
      rcases eq_or_lt_of_le h2 with h2e | h2p
      · have hD0 : dotList a b = 0 := by
          have hsq : dotList a b ^ 2 ≤ 0 := by nlinarith
          exact (pow_eq_zero_iff two_ne_zero).mp (le_antisymm hsq (sq_nonneg _))

        rw [hD0]
        nlinarith [mul_self_nonneg x, mul_self_nonneg y]
      · have h4 : 0 ≤ (x * sumSq b - y * dotList a b) ^ 2 := sq_nonneg _
        have h5 : y * y * dotList a b ^ 2 ≤ y * y * (sumSq a * sumSq b) :=
          mul_le_mul_of_nonneg_left ih (mul_self_nonneg y)
        nlinarith [h4, h5, h2p]
    nlinarith [key, ih]

theorem dotList_le_norms (a b : List ℝ) : dotList a b ≤ normList a * normList b := by
  calc dotList a b ≤ |dotList a b| := le_abs_self _
    _ = Real.sqrt (dotList a b ^ 2) := (Real.sqrt_sq_eq_abs _).symm
    _ ≤ Real.sqrt (sumSq a * sumSq b) := Real.sqrt_le_sqrt (dotList_sq_le a b)
    _ = normList a * normList b := Real.sqrt_mul (sumSq_nonneg a) _

/-- If any of the two falsy/zero-norm guards of `cosine_similarity` fires,
the function returns `0`. -/
theorem cosineSimilarity_guard (a b : List ℝ)
    (hcase : a = [] ∨ b = [] ∨ normList a = 0 ∨ normList b = 0) :
    cosineSimilarity a b = 0 := by
  rw [cosineSimilarity]
  rcases hcase with h1 | h2 | h3 | h4
  · rw [if_pos (Or.inl h1)]
  · rw [if_pos (Or.inr h2)]
  · by_cases he : a = [] ∨ b = []
    · rw [if_pos he]
    · rw [if_neg he, if_pos (Or.inl h3)]
  · by_cases he : a = [] ∨ b = []
    · rw [if_pos he]
    · rw [if_neg he, if_pos (Or.inr h4)]

/-- Away from the guards, `cosine_similarity` is the quotient formula. -/
theorem cosineSimilarity_of_ne (a b : List ℝ) (ha : a ≠ []) (hb : b ≠ [])
    (hna : normList a ≠ 0) (hnb : normList b ≠ 0) :
    cosineSimilarity a b = dotList a b / (normList a * normList b) := by
  rw [cosineSimilarity, if_neg (by tauto), if_neg (by tauto)]

/-! ### Claim theorems -/

/-- C9: `tokenize` lowercases its input, replaces commas and periods by
spaces, and splits on whitespace — `tokenize "Hello, World."` is
`["hello", "world"]` — and empty or absent text yields the empty sequence
without error. -/
theorem tokenize_examples :
    tokenize "Hello, World.".toList = ["hello".toList, "world".toList] ∧
    tokenize [] = [] ∧ tokenizeOpt none = [] :=
  ⟨by decide, by decide, rfl⟩

/-- C5: a source position outside `[0, |corpus|)` (negative or too large)
makes `recommend_similar` return the empty list instead of failing. -/
theorem recommendSimilar_out_of_range_empty (bookIdx : ℤ) (books : List Book)
    (docVectors : List (List ℝ)) (topN : ℕ)
    (hlen : books.length = docVectors.length)
    (h : bookIdx < 0 ∨ (books.length : ℤ) ≤ bookIdx) :
    recommendSimilar bookIdx books docVectors topN = [] := by
  rw [recommendSimilar, if_pos (by rw [← hlen]; exact h)]

theorem recommendSimilar_out_of_range_empty_witness :
    recommendSimilar (-1) [] [] 4 = [] :=
  recommendSimilar_out_of_range_empty (-1) [] [] 4 rfl (Or.inl (by norm_num))

/-- C1 counterexample: on vectors of different lengths `cosine_similarity`
does not fail fast — at the concrete mismatched input `[1, 0]` and `[1]`
it returns the ordinary value `1`. -/
theorem cosineSimilarity_length_mismatch_counterexample :
    ([1, 0] : List ℝ).length ≠ ([1] : List ℝ).length ∧
    cosineSimilarity [1, 0] [1] = 1 := by
  constructor
  · decide
  · have hs1 : sumSq [(1 : ℝ), 0] = 1 := by simp [sumSq]
    have hn1 : normList [(1 : ℝ), 0] = 1 := by rw [normList, hs1, Real.sqrt_one]
    have hs2 : sumSq [(1 : ℝ)] = 1 := by simp [sumSq]
    have hn2 : normList [(1 : ℝ)] = 1 := by rw [normList, hs2, Real.sqrt_one]
    have hd : dotList [(1 : ℝ), 0] [1] = 1 := by simp [dotList]
    rw [cosineSimilarity_of_ne _ _ (by simp) (by simp)
        (by rw [hn1]; norm_num) (by rw [hn2]; norm_num), hd, hn1, hn2]
    norm_num

/-- C1 amended: `cosine_similarity` performs no length validation; on vectors
of different lengths it does not raise but returns a value — `0` under the
falsy/zero-norm guards, and otherwise `dot / (norm1 * norm2)` where the dot
product ranges over the common prefix (Python `zip` truncation). -/
theorem cosineSimilarity_length_mismatch_returns_value (a b : List ℝ)
    (h : a.length ≠ b.length) :
    ((a = [] ∨ b = [] ∨ normList a = 0 ∨ normList b = 0) → cosineSimilarity a b = 0) ∧
    (a ≠ [] → b ≠ [] → normList a ≠ 0 → normList b ≠ 0 →
      cosineSimilarity a b = dotList a b / (normList a * normList b)) :=
  ⟨cosineSimilarity_guard a b, cosineSimilarity_of_ne a b⟩

theorem cosineSimilarity_length_mismatch_returns_value_witness :
    ((([1, 1] : List ℝ) = [] ∨ ([1] : List ℝ) = [] ∨
        normList [1, 1] = 0 ∨ normList [1] = 0) → cosineSimilarity [1, 1] [1] = 0) ∧
    (([1, 1] : List ℝ) ≠ [] → ([1] : List ℝ) ≠ [] →
      normList [1, 1] ≠ 0 → normList [1] ≠ 0 →
      cosineSimilarity [1, 1] [1] = dotList [1, 1] [1] / (normList [1, 1] * normList [1])) :=
  cosineSimilarity_length_mismatch_returns_value [1, 1] [1] (by decide)

/-- C7: `cosine_similarity` is symmetric on every pair of equal-length
vectors, and every vector with a non-zero entry has self-similarity `1`. -/
theorem cosineSimilarity_symm_and_self :
    (∀ a b : List ℝ, a.length = b.length →
      cosineSimilarity a b = cosineSimilarity b a) ∧
    (∀ v : List ℝ, (∃ x ∈ v, x ≠ 0) → cosineSimilarity v v = 1) := by
  constructor
  · intro a b _
    rw [cosineSimilarity, cosineSimilarity]
    exact if_congr or_comm rfl (if_congr or_comm rfl (by rw [dotList_comm, mul_comm]))
  · rintro v ⟨x, hxv, hx0⟩
    have hv : v ≠ [] := by rintro rfl; cases hxv
    have hpos : 0 < sumSq v := sumSq_pos v x hxv hx0
    have hn : normList v ≠ 0 := by
      rw [normList]
      exact ne_of_gt (Real.sqrt_pos.mpr hpos)
    rw [cosineSimilarity_of_ne v v hv hv hn hn, dotList_self, normList_sq,
      div_self (ne_of_gt hpos)]

theorem cosineSimilarity_symm_and_self_witness :
    cosineSimilarity [1, 2] [3, 4] = cosineSimilarity [3, 4] [1, 2] ∧
    cosineSimilarity [3, 4] [3, 4] = 1 :=
  ⟨cosineSimilarity_symm_and_self.1 [1, 2] [3, 4] rfl,
    cosineSimilarity_symm_and_self.2 [3, 4] ⟨3, by simp, by norm_num⟩⟩

/-- C8: on equal-length vectors `cosine_similarity` returns `0` — it does
not fail — whenever either vector is empty or has zero norm, and when all
entries are non-negative its value lies in `[0, 1]`. -/
theorem cosineSimilarity_guard_zero_and_bounds (a b : List ℝ)
    (h : a.length = b.length) :
    ((a = [] ∨ b = [] ∨ normList a = 0 ∨ normList b = 0) →
      cosineSimilarity a b = 0) ∧
    ((∀ x ∈ a, 0 ≤ x) → (∀ x ∈ b, 0 ≤ x) →
      0 ≤ cosineSimilarity a b ∧ cosineSimilarity a b ≤ 1) := by
  refine ⟨cosineSimilarity_guard a b, ?_⟩
  intro ha hb
  by_cases hg : a = [] ∨ b = [] ∨ normList a = 0 ∨ normList b = 0
  · rw [cosineSimilarity_guard a b hg]
    norm_num
  · push_neg at hg
    obtain ⟨h1, h2, h3, h4⟩ := hg
    rw [cosineSimilarity_of_ne a b h1 h2 h3 h4]
    have hna : 0 < normList a := lt_of_le_of_ne (normList_nonneg a) (Ne.symm h3)
    have hnb : 0 < normList b := lt_of_le_of_ne (normList_nonneg b) (Ne.symm h4)
    have hdenom : 0 < normList a * normList b := mul_pos hna hnb
    exact ⟨div_nonneg (dotList_nonneg a b ha hb) hdenom.le,
      div_le_one_of_le₀ (dotList_le_norms a b) hdenom.le⟩

theorem cosineSimilarity_guard_zero_and_bounds_witness :
    ((([1] : List ℝ) = [] ∨ ([2] : List ℝ) = [] ∨
        normList [1] = 0 ∨ normList [2] = 0) → cosineSimilarity [1] [2] = 0) ∧
    ((∀ x ∈ ([1] : List ℝ), 0 ≤ x) → (∀ x ∈ ([2] : List ℝ), 0 ≤ x) →
      0 ≤ cosineSimilarity [1] [2] ∧ cosineSimilarity [1] [2] ≤ 1) :=
  cosineSimilarity_guard_zero_and_bounds [1] [2] rfl

/-- A vocabulary word occurs in at least one document. -/
theorem docFreq_pos_of_mem_vocab (documents : List Str) (w : Str)
    (hw : w ∈ vocabList documents) : 1 ≤ docFreq documents w := by
  rw [vocabList, List.mem_dedup] at hw
  obtain ⟨l, hl, hwl⟩ := List.mem_flatten.mp hw
  obtain ⟨d, hd, rfl⟩ := List.mem_map.mp hl
  have hpos : 0 < docFreq documents w := by
    rw [docFreq]
    exact List.countP_pos_iff.mpr ⟨d, hd, by simpa using hwl⟩
  omega

theorem docFreq_le_length (documents : List Str) (w : Str) :
    docFreq documents w ≤ documents.length :=
  List.countP_le_length _

/-- C6: for a non-empty corpus, the index built by `build_tfidf` assigns to
every vocabulary term `w` the weight `ln ((N + 1) / (df + 1)) + 1` (with
`N` the corpus size and `df` the number of documents containing `w`), and
that weight is strictly positive. -/
theorem buildTfidf_idf_formula_positive (documents : List Str)
    (hne : documents ≠ []) (w : Str) (hw : w ∈ (buildTfidf documents).2.1) :
    (buildTfidf documents).2.2 w =
      Real.log (((documents.length : ℝ) + 1) / ((docFreq documents w : ℝ) + 1)) + 1 ∧
    0 < (buildTfidf documents).2.2 w := by
  have hw2 : w ∈ vocabList documents := hw
  have heq : (buildTfidf documents).2.2 w =
      Real.log (((documents.length : ℝ) + 1) / ((docFreq documents w : ℝ) + 1)) + 1 := by
    show idfFun documents w = _
    rw [idfFun, if_pos hw2, idfOf]
  refine ⟨heq, ?_⟩
  rw [heq]
  have hdfN : docFreq documents w ≤ documents.length := docFreq_le_length documents w
  have hposden : (0 : ℝ) < (docFreq documents w : ℝ) + 1 := by positivity
  have hone : (1 : ℝ) ≤ ((documents.length : ℝ) + 1) / ((docFreq documents w : ℝ) + 1) := by
    rw [le_div_iff hposden]
    have hc : (docFreq documents w : ℝ) ≤ (documents.length : ℝ) := by exact_mod_cast hdfN
    linarith
  have hlog := Real.log_nonneg hone
  linarith

theorem buildTfidf_idf_formula_positive_witness :
    ((buildTfidf ["a".toList]).2.2 "a".toList =
      Real.log ((((["a".toList] : List Str).length : ℝ) + 1) /
        ((docFreq ["a".toList] "a".toList : ℝ) + 1)) + 1) ∧
    0 < (buildTfidf ["a".toList]).2.2 "a".toList :=
  buildTfidf_idf_formula_positive ["a".toList] (by decide) "a".toList (by decide)

/-- The combined score written out as the claim states it. -/
theorem finalScore_formula (queryTokens : List Str) (queryVector : List ℝ)
    (b : Book) (docVec : List ℝ) :
    finalScore queryTokens queryVector b docVec =
      cosineSimilarity queryVector docVec * 4.0 +
        3 * ((queryTokens.filter (fun t => t ∈ tokenize b.title)).length : ℝ) +
        2 * ((queryTokens.filter (fun t => t ∈ tokenize b.author)).length : ℝ) := by
  rw [finalScore, boost, boost]
  push_cast
  ring

/-- C2: `search_with_ir` returns, up to order, exactly the corpus books whose
combined score `cos × 4.0 + 3·(query tokens in title) + 2·(query tokens in
author)` is strictly positive: no book with score ≤ 0 and no book outside
the corpus appears. -/
theorem searchWithIr_exactly_positive (query : Str) (books : List Book)
    (docVectors : List (List ℝ)) (vocab : List Str) (idf : Str → ℝ)
    (hlen : books.length = docVectors.length) :
    List.Perm (searchWithIr query books docVectors vocab idf)
      (((books.zip docVectors).filter (fun p =>
          0 < cosineSimilarity (vectorize (tokenize query) vocab idf) p.2 * 4.0 +
            3 * (((tokenize query).filter (fun t => t ∈ tokenize p.1.title)).length : ℝ) +
            2 * (((tokenize query).filter (fun t => t ∈ tokenize p.1.author)).length : ℝ))).map
        Prod.fst) := by
  rw [searchWithIr]
  refine List.Perm.trans
    (List.Perm.map _ (List.Perm.filter _ (List.perm_insertionSort _ _))) ?_
  rw [searchScores, List.filter_map, List.map_map]
  have hfst : (Prod.fst ∘ fun p : Book × List ℝ =>
      (p.1, finalScore (tokenize query) (vectorize (tokenize query) vocab idf) p.1 p.2)) =
      (Prod.fst : Book × List ℝ → Book) := rfl
  rw [hfst]
  have hfilter : (books.zip docVectors).filter ((fun p : Book × ℝ => decide (0 < p.2)) ∘
      fun p : Book × List ℝ =>
        (p.1, finalScore (tokenize query) (vectorize (tokenize query) vocab idf) p.1 p.2)) =
      (books.zip docVectors).filter (fun p =>
        0 < cosineSimilarity (vectorize (tokenize query) vocab idf) p.2 * 4.0 +
          3 * (((tokenize query).filter (fun t => t ∈ tokenize p.1.title)).length : ℝ) +
          2 * (((tokenize query).filter (fun t => t ∈ tokenize p.1.author)).length : ℝ)) := by
    refine List.filter_congr ?_
    intro p _
    simp only [Function.comp_apply]
    exact decide_eq_decide.mpr (by rw [finalScore_formula])
  rw [hfilter]

theorem searchWithIr_exactly_positive_witness :
    List.Perm
      (searchWithIr "a".toList [Book.mk "1".toList "a".toList [] [] []] [[1]]
        ["a".toList] (fun w => if w = "a".toList then 1 else 0))
      (List.map Prod.fst
        ((([Book.mk "1".toList "a".toList [] [] []] : List Book).zip [[1]]).filter
          (fun p =>
            0 < cosineSimilarity
                (vectorize (tokenize "a".toList) ["a".toList]
                  (fun w => if w = "a".toList then 1 else 0)) p.2 * 4.0 +
              3 * (((tokenize "a".toList).filter
                (fun t => t ∈ tokenize p.1.title)).length : ℝ) +
              2 * (((tokenize "a".toList).filter
                (fun t => t ∈ tokenize p.1.author)).length : ℝ)))) :=
  searchWithIr_exactly_positive _ _ _ _ _ rfl

/-! ### Stability of the descending sort

Python's `list.sort(key=..., reverse=True)` is stable.  The strong pairwise
invariant below says: in the sorted output, scores are non-increasing, and
equal scores keep the order of their (strictly increasing) input tags. -/

/-- Inserting an element whose tag is below every tag of a stably-ordered
list preserves the strong descending invariant. -/
theorem orderedInsert_pairwise_stable (x : ℕ × ℝ) :
    ∀ l : List (ℕ × ℝ),
      l.Pairwise (fun p q => q.2 < p.2 ∨ (p.2 = q.2 ∧ p.1 < q.1)) →
      (∀ y ∈ l, x.1 < y.1) →
      (l.orderedInsert (fun a b => b.2 ≤ a.2) x).Pairwise
        (fun p q => q.2 < p.2 ∨ (p.2 = q.2 ∧ p.1 < q.1))
  | [], _, _ => by simp
  | b :: m, hl, hx => by
    rw [List.orderedInsert]
    split_ifs with hle
    · refine List.Pairwise.cons ?_ hl
      intro z hz
      rcases List.mem_cons.mp hz with rfl | hzm
      · rcases lt_or_eq_of_le hle with hlt | heq
        · exact Or.inl hlt
        · exact Or.inr ⟨heq.symm, hx _ (List.mem_cons_self _ _)⟩
      · have hbz := (List.pairwise_cons.mp hl).1 z hzm
        have hzb : z.2 ≤ b.2 := by
          rcases hbz with hlt | heq
          · exact hlt.le
          · exact le_of_eq heq.1.symm
        rcases lt_or_eq_of_le (hzb.trans hle) with hlt | heq
        · exact Or.inl hlt
        · exact Or.inr ⟨heq.symm, hx _ hz⟩
    · have hxb : x.2 < b.2 := lt_of_not_le hle
      refine List.Pairwise.cons ?_
        (orderedInsert_pairwise_stable x m (List.pairwise_cons.mp hl).2
          (fun y hy => hx y (List.mem_cons_of_mem _ hy)))
      intro z hz
      rcases (List.mem_orderedInsert _).mp hz with rfl | hzm
      · exact Or.inl hxb
      · exact (List.pairwise_cons.mp hl).1 z hzm

/-- A list with strictly increasing tags sorts (stably, descending by score)
into a list satisfying the strong descending invariant. -/
theorem insertionSort_pairwise_stable :
    ∀ l : List (ℕ × ℝ), l.Pairwise (fun p q => p.1 < q.1) →
      (l.insertionSort (fun a b => b.2 ≤ a.2)).Pairwise
        (fun p q => q.2 < p.2 ∨ (p.2 = q.2 ∧ p.1 < q.1))
  | [], _ => by simp
  | a :: l, hl => by
    rw [List.insertionSort]
    refine orderedInsert_pairwise_stable a _
      (insertionSort_pairwise_stable l (List.pairwise_cons.mp hl).2) ?_
    intro y hy
    exact (List.pairwise_cons.mp hl).1 y ((List.mem_insertionSort _).mp hy)

/-- The combined score of the document at corpus position `i`
(src/app.py:70-79, with `books[i]` and `doc_vectors[i]`). -/
noncomputable def searchScoreAt (query : Str) (books : List Book)
    (docVectors : List (List ℝ)) (vocab : List Str) (idf : Str → ℝ) (i : ℕ) : ℝ :=
  finalScore (tokenize query) (vectorize (tokenize query) vocab idf)
    (books.getD i default) (docVectors.getD i [])

/-- The scored list of `search_with_ir`, re-read positionally: entry `i` is
the book at position `i` paired with the score of position `i`. -/
theorem searchScores_eq_range (query : Str) (books : List Book)
    (docVectors : List (List ℝ)) (vocab : List Str) (idf : Str → ℝ)
    (hlen : books.length = docVectors.length) :
    searchScores query books docVectors vocab idf =
      ((List.range books.length).map
        (fun i => (i, searchScoreAt query books docVectors vocab idf i))).map
        (fun p => (books.getD p.1 default, p.2)) := by
  apply List.ext_getElem
  · simp [searchScores, hlen]
  · intro i h1 h2
    have hib : i < books.length := by
      simpa [searchScores, hlen] using h1
    have hid : i < docVectors.length := hlen ▸ hib
    simp only [searchScores, List.getElem_map, List.getElem_zip, List.getElem_range,
      searchScoreAt]
    rw [List.getD_eq_getElem books default hib, List.getD_eq_getElem docVectors [] hid]

/-- C3: the books returned by `search_with_ir` are ordered by combined score
descending, and tied scores keep the corpus's relative order (the sort is
stable): the output is `ranked` read through the corpus, where `ranked`
lists positions with strictly positive score such that later positions have
strictly smaller score or an equal score and a larger corpus position. -/
theorem searchWithIr_sorted_descending_stable (query : Str) (books : List Book)
    (docVectors : List (List ℝ)) (vocab : List Str) (idf : Str → ℝ)
    (hlen : books.length = docVectors.length) :
    ∃ ranked : List ℕ,
      searchWithIr query books docVectors vocab idf =
        ranked.map (fun i => books.getD i default) ∧
      (∀ i ∈ ranked, i < books.length ∧
        0 < searchScoreAt query books docVectors vocab idf i) ∧
      ranked.Pairwise (fun i j =>
        searchScoreAt query books docVectors vocab idf j <
          searchScoreAt query books docVectors vocab idf i ∨
        (searchScoreAt query books docVectors vocab idf i =
          searchScoreAt query books docVectors vocab idf j ∧ i < j)) := by
  classical
  set s := searchScoreAt query books docVectors vocab idf with hs
  set dec : List (ℕ × ℝ) := (List.range books.length).map (fun i => (i, s i)) with hdec
  refine ⟨((dec.insertionSort (fun a b => b.2 ≤ a.2)).filter
      (fun p => 0 < p.2)).map Prod.fst, ?_, ?_, ?_⟩
  · rw [searchWithIr, searchScores_eq_range query books docVectors vocab idf hlen,
      ← hdec,
      ← List.map_insertionSort (fun a b : ℕ × ℝ => b.2 ≤ a.2)
        (fun a b : Book × ℝ => b.2 ≤ a.2) (fun p => (books.getD p.1 default, p.2)) dec
        (fun a _ b _ => Iff.rfl),
      List.filter_map, List.map_map, List.map_map]
    rfl
  · intro i hi
    obtain ⟨p, hp, rfl⟩ := List.mem_map.mp hi
    have hpmem : p ∈ dec :=
      (List.mem_insertionSort _).mp (List.mem_of_mem_filter hp)
    have hppos : (0 : ℝ) < p.2 := by
      have := List.of_mem_filter hp
      simpa using this
    obtain ⟨j, hj, rfl⟩ := List.mem_map.mp hpmem
    exact ⟨List.mem_range.mp hj, hppos⟩
  · rw [List.pairwise_map]
    have h1 : dec.Pairwise (fun p q => p.1 < q.1) := by
      rw [hdec, List.pairwise_map]
      simpa using List.pairwise_lt_range books.length
    have h2 := insertionSort_pairwise_stable dec h1
    have h3 := h2.filter (fun p : ℕ × ℝ => decide (0 < p.2))
    refine List.Pairwise.imp_of_mem ?_ h3
    intro a b ha hb hr
    have ha2 : a.2 = s a.1 := by
      have hmem : a ∈ dec :=
        (List.mem_insertionSort _).mp (List.mem_of_mem_filter ha)
      obtain ⟨j, _, rfl⟩ := List.mem_map.mp hmem
      rfl
    have hb2 : b.2 = s b.1 := by
      have hmem : b ∈ dec :=
        (List.mem_insertionSort _).mp (List.mem_of_mem_filter hb)
      obtain ⟨j, _, rfl⟩ := List.mem_map.mp hmem
      rfl
    rcases hr with hlt | ⟨heq, hidx⟩
    · exact Or.inl (by rw [← ha2, ← hb2]; exact hlt)
    · exact Or.inr ⟨by rw [← ha2, ← hb2]; exact heq, hidx⟩

theorem searchWithIr_sorted_descending_stable_witness :
    ∃ ranked : List ℕ,
      searchWithIr [] [(default : Book)] [[]] [] (fun _ => 0) =
        ranked.map (fun i => ([(default : Book)] : List Book).getD i default) ∧
      (∀ i ∈ ranked, i < ([(default : Book)] : List Book).length ∧
        0 < searchScoreAt [] [(default : Book)] [[]] [] (fun _ => 0) i) ∧
      ranked.Pairwise (fun i j =>
        searchScoreAt [] [(default : Book)] [[]] [] (fun _ => 0) j <
          searchScoreAt [] [(default : Book)] [[]] [] (fun _ => 0) i ∨
        (searchScoreAt [] [(default : Book)] [[]] [] (fun _ => 0) i =
          searchScoreAt [] [(default : Book)] [[]] [] (fun _ => 0) j ∧ i < j)) :=
  searchWithIr_sorted_descending_stable [] [(default : Book)] [[]] [] (fun _ => 0) rfl

/-- Cosine similarity of document `i` to the source document
(src/app.py:89-94). -/
noncomputable def recommendScoreAt (bookIdx : ℕ) (docVectors : List (List ℝ))
    (i : ℕ) : ℝ :=
  cosineSimilarity (docVectors.getD bookIdx []) (docVectors.getD i [])

/-- The enumerated corpus, read positionally. -/
theorem zip_enum_eq_range (books : List Book) (docVectors : List (List ℝ))
    (hlen : books.length = docVectors.length) :
    (books.zip docVectors).enum =
      (List.range books.length).map
        (fun j => (j, (books.getD j default, docVectors.getD j []))) := by
  apply List.ext_getElem
  · simp [hlen]
  · intro i h1 h2
    have hib : i < books.length := by simpa [hlen] using h1
    have hid : i < docVectors.length := hlen ▸ hib
    simp only [List.getElem_enum, List.getElem_map, List.getElem_zip, List.getElem_range]
    rw [List.getD_eq_getElem books default hib, List.getD_eq_getElem docVectors [] hid]

/-- The recommender's scored list, re-read positionally. -/
theorem recommendScores_eq_range (bookIdx : ℕ) (books : List Book)
    (docVectors : List (List ℝ)) (hlen : books.length = docVectors.length) :
    recommendScores bookIdx books docVectors =
      (((List.range books.length).filter (fun j => j ≠ bookIdx)).map
        (fun j => (j, recommendScoreAt bookIdx docVectors j))).map
        (fun p => (books.getD p.1 default, p.2)) := by
  rw [recommendScores, zip_enum_eq_range books docVectors hlen, List.filter_map,
    List.map_map, List.map_map]
  rfl

/-- Removing one in-range tag from `range n` leaves `n - 1` tags. -/
theorem length_filter_ne_range (n i : ℕ) (hi : i < n) :
    ((List.range n).filter (fun j => j ≠ i)).length = n - 1 := by
  induction n with
  | zero => omega
  | succ m ih =>
    rw [List.range_succ, List.filter_append, List.length_append]
    by_cases him : i < m
    · rw [ih him]
      have hm : (List.filter (fun j => decide (j ≠ i)) [m]).length = 1 := by
        have : m ≠ i := by omega
        simp [this]
      rw [hm]
      omega
    · have hieq : i = m := by omega
      subst hieq
      have hself : (List.range i).filter (fun j => decide (j ≠ i)) = List.range i := by
        refine List.filter_eq_self.mpr ?_
        intro a ha
        simpa using (List.mem_range.mp ha).ne
      have hone : (List.filter (fun j => decide (j ≠ i)) [i]).length = 0 := by simp
      rw [hself, hone]
      simp

/-- C4: for a corpus with its parallel vector list, an in-range source
position and a requested count `k`, `recommend_similar` returns exactly
`min k (N - 1)` books, all drawn from corpus positions other than the
source, listed in descending order of cosine similarity to the source
document's vector. -/
theorem recommendSimilar_top_min_excluding_source (books : List Book)
    (docVectors : List (List ℝ)) (bookIdx : ℤ) (k : ℕ)
    (hlen : books.length = docVectors.length)
    (h0 : 0 ≤ bookIdx) (hN : bookIdx < (books.length : ℤ)) :
    (recommendSimilar bookIdx books docVectors k).length =
      min k (books.length - 1) ∧
    ∃ pairs : List (ℕ × ℝ),
      recommendSimilar bookIdx books docVectors k =
        pairs.map (fun p => books.getD p.1 default) ∧
      (∀ p ∈ pairs, p.1 < books.length ∧ (p.1 : ℤ) ≠ bookIdx ∧
        p.2 = cosineSimilarity (docVectors.getD bookIdx.toNat [])
          (docVectors.getD p.1 [])) ∧
      pairs.Pairwise (fun p q => q.2 ≤ p.2) := by
  classical
  have hguard : ¬(bookIdx < 0 ∨ (docVectors.length : ℤ) ≤ bookIdx) := by
    push_neg
    exact ⟨h0, by rw [← hlen]; exact hN⟩
  have hiZ : (bookIdx.toNat : ℤ) = bookIdx := Int.toNat_of_nonneg h0
  have hii : bookIdx.toNat < books.length := by omega
  set dec : List (ℕ × ℝ) :=
    ((List.range books.length).filter (fun j => j ≠ bookIdx.toNat)).map
      (fun j => (j, recommendScoreAt bookIdx.toNat docVectors j)) with hdec
  have hrw : recommendSimilar bookIdx books docVectors k =
      ((dec.insertionSort (fun a b => b.2 ≤ a.2)).take k).map
        (fun p => books.getD p.1 default) := by
    rw [recommendSimilar, if_neg hguard,
      recommendScores_eq_range bookIdx.toNat books docVectors hlen, ← hdec,
      ← List.map_insertionSort (fun a b : ℕ × ℝ => b.2 ≤ a.2)
        (fun a b : Book × ℝ => b.2 ≤ a.2) (fun p => (books.getD p.1 default, p.2)) dec
        (fun a _ b _ => Iff.rfl),
      ← List.map_take, List.map_map]
    rfl
  constructor
  · rw [hrw]
    simp only [List.length_map, List.length_take, List.length_insertionSort, hdec,
      List.length_map]
    rw [length_filter_ne_range books.length bookIdx.toNat hii]
  · refine ⟨(dec.insertionSort (fun a b => b.2 ≤ a.2)).take k, hrw, ?_, ?_⟩
    · intro p hp
      have hpdec : p ∈ dec :=
        (List.mem_insertionSort _).mp (List.mem_of_mem_take hp)
      rw [hdec] at hpdec
      obtain ⟨j, hj, rfl⟩ := List.mem_map.mp hpdec
      have hjr : j < books.length := List.mem_range.mp (List.mem_of_mem_filter hj)
      have hjne : j ≠ bookIdx.toNat := by
        have := List.of_mem_filter hj
        simpa using this
      exact ⟨hjr, by omega, rfl⟩
    · have h1 : dec.Pairwise (fun p q => p.1 < q.1) := by
        rw [hdec, List.pairwise_map]
        have := (List.pairwise_lt_range books.length).filter
          (fun j => decide (j ≠ bookIdx.toNat))
        simpa using this
      have h2 := insertionSort_pairwise_stable dec h1
      have h3 := h2.sublist (List.take_sublist k _)
      refine h3.imp ?_
      intro a b hr
      rcases hr with hlt | ⟨heq, _⟩
      · exact hlt.le
      · exact le_of_eq heq.symm

theorem recommendSimilar_top_min_excluding_source_witness :
    (recommendSimilar 0 [default, default] [[1], [0]] 4).length =
      min 4 (([default, default] : List Book).length - 1) ∧
    ∃ pairs : List (ℕ × ℝ),
      recommendSimilar 0 [default, default] [[1], [0]] 4 =
        pairs.map (fun p => ([default, default] : List Book).getD p.1 default) ∧
      (∀ p ∈ pairs, p.1 < ([default, default] : List Book).length ∧
        (p.1 : ℤ) ≠ 0 ∧
        p.2 = cosineSimilarity (([[1], [0]] : List (List ℝ)).getD (0 : ℤ).toNat [])
          (([[1], [0]] : List (List ℝ)).getD p.1 [])) ∧
      pairs.Pairwise (fun p q => q.2 ≤ p.2) :=
  recommendSimilar_top_min_excluding_source [default, default] [[1], [0]] 0 4 rfl
    (by norm_num) (by norm_num)

/-! ### Invariance under the vocabulary's slot-assignment order (C10) -/

theorem dotList_vectorize (t1 t2 : List Str) (vocab : List Str) (idf : Str → ℝ) :
    dotList (vectorize t1 vocab idf) (vectorize t2 vocab idf) =
      (vocab.map (fun w =>
        ((t1.count w : ℝ) * idf w) * ((t2.count w : ℝ) * idf w))).sum := by
  rw [dotList, vectorize, vectorize, List.zip_map', List.map_map]
  rfl

theorem sumSq_vectorize (t : List Str) (vocab : List Str) (idf : Str → ℝ) :
    sumSq (vectorize t vocab idf) =
      (vocab.map (fun w =>
        ((t.count w : ℝ) * idf w) * ((t.count w : ℝ) * idf w))).sum := by
  rw [sumSq, vectorize, List.map_map]
  rfl

/-- Cosine similarity of two vectorizations does not depend on the order in
which vocabulary slots were assigned. -/
theorem cosineSimilarity_vectorize_perm (t1 t2 : List Str)
    (vocab vocab2 : List Str) (idf : Str → ℝ) (hperm : vocab.Perm vocab2) :
    cosineSimilarity (vectorize t1 vocab idf) (vectorize t2 vocab idf) =
      cosineSimilarity (vectorize t1 vocab2 idf) (vectorize t2 vocab2 idf) := by
  have hd : dotList (vectorize t1 vocab idf) (vectorize t2 vocab idf) =
      dotList (vectorize t1 vocab2 idf) (vectorize t2 vocab2 idf) := by
    rw [dotList_vectorize, dotList_vectorize]
    exact (hperm.map _).sum_eq
  have hn1 : normList (vectorize t1 vocab idf) = normList (vectorize t1 vocab2 idf) := by
    rw [normList, normList, sumSq_vectorize, sumSq_vectorize, (hperm.map _).sum_eq]
  have hn2 : normList (vectorize t2 vocab idf) = normList (vectorize t2 vocab2 idf) := by
    rw [normList, normList, sumSq_vectorize, sumSq_vectorize, (hperm.map _).sum_eq]
  have he1 : vectorize t1 vocab idf = [] ↔ vectorize t1 vocab2 idf = [] := by
    rw [vectorize, vectorize, List.map_eq_nil_iff, List.map_eq_nil_iff,
      ← List.length_eq_zero, ← List.length_eq_zero, hperm.length_eq]
  have he2 : vectorize t2 vocab idf = [] ↔ vectorize t2 vocab2 idf = [] := by
    rw [vectorize, vectorize, List.map_eq_nil_iff, List.map_eq_nil_iff,
      ← List.length_eq_zero, ← List.length_eq_zero, hperm.length_eq]
  rw [cosineSimilarity, cosineSimilarity]
  exact if_congr (or_congr he1 he2) rfl
    (if_congr (or_congr (by rw [hn1]) (by rw [hn2])) rfl (by rw [hd, hn1, hn2]))

theorem searchScores_vectorize_perm (query : Str) (books : List Book)
    (docTokens : List (List Str)) (vocab vocab2 : List Str) (idf : Str → ℝ)
    (hperm : vocab.Perm vocab2) :
    searchScores query books (docTokens.map (fun t => vectorize t vocab idf))
        vocab idf =
      searchScores query books (docTokens.map (fun t => vectorize t vocab2 idf))
        vocab2 idf := by
  rw [searchScores, searchScores, List.zip_map_right, List.zip_map_right,
    List.map_map, List.map_map]
  refine List.map_congr_left ?_
  intro p _
  show (p.1, finalScore (tokenize query) (vectorize (tokenize query) vocab idf)
      p.1 (vectorize p.2 vocab idf)) =
    (p.1, finalScore (tokenize query) (vectorize (tokenize query) vocab2 idf)
      p.1 (vectorize p.2 vocab2 idf))
  congr 1
  rw [finalScore, finalScore,
    cosineSimilarity_vectorize_perm (tokenize query) p.2 vocab vocab2 idf hperm]

theorem recommendScores_vectorize_perm (bookIdx : ℕ) (books : List Book)
    (docTokens : List (List Str)) (vocab vocab2 : List Str) (idf : Str → ℝ)
    (hperm : vocab.Perm vocab2) (hi : bookIdx < docTokens.length) :
    recommendScores bookIdx books (docTokens.map (fun t => vectorize t vocab idf)) =
      recommendScores bookIdx books (docTokens.map (fun t => vectorize t vocab2 idf)) := by
  have hbase1 : (docTokens.map (fun t => vectorize t vocab idf)).getD bookIdx [] =
      vectorize (docTokens.getD bookIdx []) vocab idf := by
    rw [List.getD_eq_getElem _ _ (by simpa using hi), List.getElem_map,
      List.getD_eq_getElem _ _ hi]
  have hbase2 : (docTokens.map (fun t => vectorize t vocab2 idf)).getD bookIdx [] =
      vectorize (docTokens.getD bookIdx []) vocab2 idf := by
    rw [List.getD_eq_getElem _ _ (by simpa using hi), List.getElem_map,
      List.getD_eq_getElem _ _ hi]
  rw [recommendScores, recommendScores, List.zip_map_right, List.zip_map_right,
    List.enum_map, List.enum_map, List.filter_map, List.filter_map,
    List.map_map, List.map_map]
  refine List.map_congr_left ?_
  intro p _
  show (p.2.1, cosineSimilarity
      ((docTokens.map (fun t => vectorize t vocab idf)).getD bookIdx [])
      (vectorize p.2.2 vocab idf)) =
    (p.2.1, cosineSimilarity
      ((docTokens.map (fun t => vectorize t vocab2 idf)).getD bookIdx [])
      (vectorize p.2.2 vocab2 idf))
  congr 1
  rw [hbase1, hbase2,
    cosineSimilarity_vectorize_perm (docTokens.getD bookIdx []) p.2.2 vocab vocab2
      idf hperm]

/-- C10: the ranked lists of `search_with_ir` and `recommend_similar` are
invariant under any permutation of the vocabulary's slot assignment, with
all document vectors re-laid-out by vectorizing against the permuted
vocabulary: results never depend on the implementation-defined iteration
order of the Python set behind `vocab`. -/
theorem search_recommend_vocab_order_invariant (query : Str) (books : List Book)
    (docTokens : List (List Str)) (vocab vocab2 : List Str) (idf : Str → ℝ)
    (bookIdx : ℤ) (k : ℕ) (hperm : vocab.Perm vocab2) :
    (searchWithIr query books (docTokens.map (fun t => vectorize t vocab idf))
        vocab idf =
      searchWithIr query books (docTokens.map (fun t => vectorize t vocab2 idf))
        vocab2 idf) ∧
    (recommendSimilar bookIdx books (docTokens.map (fun t => vectorize t vocab idf)) k =
      recommendSimilar bookIdx books
        (docTokens.map (fun t => vectorize t vocab2 idf)) k) := by
  constructor
  · rw [searchWithIr, searchWithIr,
      searchScores_vectorize_perm query books docTokens vocab vocab2 idf hperm]
  · rw [recommendSimilar, recommendSimilar]
    simp only [List.length_map]
    by_cases hg : bookIdx < 0 ∨ (docTokens.length : ℤ) ≤ bookIdx
    · rw [if_pos hg, if_pos hg]
    · rw [if_neg hg, if_neg hg,
        recommendScores_vectorize_perm bookIdx.toNat books docTokens vocab vocab2
          idf hperm (by omega)]

theorem search_recommend_vocab_order_invariant_witness :
    (searchWithIr "a".toList [default]
        ([["a".toList]].map (fun t => vectorize t ["a".toList, "b".toList] (fun _ => 1)))
        ["a".toList, "b".toList] (fun _ => 1) =
      searchWithIr "a".toList [default]
        ([["a".toList]].map (fun t => vectorize t ["b".toList, "a".toList] (fun _ => 1)))
        ["b".toList, "a".toList] (fun _ => 1)) ∧
    (recommendSimilar 0 [default]
        ([["a".toList]].map (fun t => vectorize t ["a".toList, "b".toList] (fun _ => 1))) 4 =
      recommendSimilar 0 [default]
        ([["a".toList]].map (fun t => vectorize t ["b".toList, "a".toList] (fun _ => 1))) 4) :=
  search_recommend_vocab_order_invariant "a".toList [default] [["a".toList]]
    ["a".toList, "b".toList] ["b".toList, "a".toList] (fun _ => 1) 0 4 (by decide)
